import Mathlib

/-!
# Verification of the frost-survival simulation core

Shallow embedding of the game's simulation core, translated from the
TypeScript sources:

* `src/state/frost_survival_design.ts` — shared combat model
  (`calculateDamage`, `calculateDefense`);
* `src/player/PlayerManager.ts` — damage intake with invulnerability
  window, death handling, experience / level-up, kill rewards;
* the enemy population manager (`EnemyManager`) — damage application and
  death removal, chaser selection, safe-zone boundary enforcement,
  pairwise separation, player-collision containment;
* the tower subsystem (`TowerAttackManager`) — activation / upgrade,
  nearest-enemy targeting, levelled damage;
* the main game class — forge (weapon-upgrade) economic tick.

JavaScript `number` arithmetic is idealised as exact arithmetic: integer
quantities become `Int`/`Nat`, clock times become `Rat`, and planar
geometry (which uses `Math.sqrt`) is embedded over `Real`.
-/

/-- The shared mutable game state (`GameState` in
`frost_survival_design.ts`), restricted to the fields the combat and
progression code reads or writes. -/
structure GState where
  level : Int
  experience : Int
  health : Int
  maxHealth : Int
  weaponLevel : Int
  armorLevel : Int
  meatCount : Int
  money : Int
  deriving DecidableEq, Repr

/-- `calculateDamage` from `frost_survival_design.ts`:
`baseDamage = 10 + (weaponLevel - 1) * 5`,
`levelMultiplier = 1 + (weaponLevel - 1) * 0.1`,
result `Math.floor(baseDamage * levelMultiplier)`. -/
def calculateDamage (weaponLevel : Int) : Int :=
  let baseDamage : Rat := 10 + ((weaponLevel : Rat) - 1) * 5
  let levelMultiplier : Rat := 1 + ((weaponLevel : Rat) - 1) * (1/10)
  ⌊baseDamage * levelMultiplier⌋

/-- The spec's damage formula, written exactly as the spec states it:
`damage(weaponLevel) = floor((10 + 5·(weaponLevel−1)) · (1 + 0.1·(weaponLevel−1)))`. -/
def damageSpecFormula (weaponLevel : Int) : Int :=
  ⌊((10 : Rat) + 5 * ((weaponLevel : Rat) - 1)) *
    (1 + (1/10) * ((weaponLevel : Rat) - 1))⌋

/-- `calculateDefense` from `frost_survival_design.ts`: `armorLevel * 5`. -/
def calculateDefense (armorLevel : Int) : Int :=
  armorLevel * 5

/-- `PlayerManager.getExperienceRequired`: `level * 100 + (level - 1) * 50`. -/
def getExperienceRequired (level : Int) : Int :=
  level * 100 + (level - 1) * 50

/-- `PlayerManager.levelUp`: increments the level, adds 20 max health and
fully heals. -/
def levelUp (s : GState) : GState :=
  { s with
    level := s.level + 1
    maxHealth := s.maxHealth + 20
    health := s.maxHealth + 20 }

/-- `PlayerManager.gainExperience`: adds the award to `experience`, then
checks the level-up threshold once (a single `if`, not a loop). -/
def gainExperience (s : GState) (exp : Int) : GState :=
  let s1 := { s with experience := s.experience + exp }
  if getExperienceRequired (s1.level + 1) ≤ s1.experience then levelUp s1 else s1

/-- `PlayerManager.gainResources`: +1 meat, +5 money, then 10 experience
through `gainExperience`. -/
def gainResources (s : GState) : GState :=
  gainExperience { s with meatCount := s.meatCount + 1, money := s.money + 5 } 10

/-- The damage actually applied to the player by one landed enemy hit:
`Math.max(1, enemyDamage - defense)` with `enemyDamage = 10`. -/
def actualDamage (armorLevel : Int) : Int :=
  max 1 (10 - calculateDefense armorLevel)

/-- `PlayerManager.takeDamage`, as a function of the current clock time
`now`, the stored `lastDamagedAt` and the game state.  Returns the new
state together with the new `lastDamagedAt`.  Inside the 0.6 s
invulnerability window the call returns everything unchanged; otherwise
the damage is subtracted, `lastDamagedAt` is set to `now`, and a
non-positive resulting health is reset to `maxHealth`
(`PlayerManager.handleDeath`). -/
def takeDamage (now lastDamagedAt : Rat) (s : GState) : GState × Rat :=
  if now - lastDamagedAt < 3/5 then
    (s, lastDamagedAt)
  else if s.health - actualDamage s.armorLevel ≤ 0 then
    ({ s with health := s.maxHealth }, now)
  else
    ({ s with health := s.health - actualDamage s.armorLevel }, now)

/-- An enemy entry of `EnemyManager.enemies` (`part_004`), reduced to the
fields `damageEnemy` touches.  `id` stands for the mesh's object
identity: distinct entries always carry distinct ids. -/
structure Enemy where
  id : Nat
  hp : Int
  deriving DecidableEq, Repr

/-- `EnemyManager.damageEnemy` (`part_004`): looks the enemy up by
identity (`find`), returns unchanged on a stale reference, otherwise
subtracts `calculateDamage(state.weaponLevel)` from its hp with no lower
clamp; if the resulting hp is ≤ 0 the enemy is spliced out of the live
collection and `PlayerManager.gainResources` is called once. -/
def damageEnemy (eid : Nat) (es : List Enemy) (s : GState) : List Enemy × GState :=
  let dmg := calculateDamage s.weaponLevel
  match es.find? (fun d => d.id == eid) with
  | none => (es, s)
  | some ed =>
    let newHp := ed.hp - dmg
    let es1 := es.map (fun d => if d.id == eid then { d with hp := newHp } else d)
    if newHp ≤ 0 then
      (es1.eraseP (fun d => d.id == eid), gainResources s)
    else
      (es1, s)

/-- The multi-target cleave of `PlayerManager.handleAttack`: every enemy
in range receives one `damageEnemy` call, in order. -/
def cleave (ids : List Nat) (es : List Enemy) (s : GState) : List Enemy × GState :=
  ids.foldl (fun p eid => damageEnemy eid p.1 p.2) (es, s)

-- ## C1: the shared damage formula

/-- The exact rational value whose floor `calculateDamage` returns. -/
def qdamage (w : Int) : Rat :=
  (10 + ((w : Rat) - 1) * 5) * (1 + ((w : Rat) - 1) * (1/10))

theorem calculateDamage_eq_floor (w : Int) : calculateDamage w = ⌊qdamage w⌋ := rfl

theorem calculateDamage_succ_ge (w : Int) (hw : 1 ≤ w) :
    calculateDamage w + 6 ≤ calculateDamage (w + 1) := by
  have hcast : (1 : Rat) ≤ (w : Rat) := by exact_mod_cast hw
  have h6 : qdamage w + 6 ≤ qdamage (w + 1) := by
    unfold qdamage
    push_cast
    nlinarith [hcast]
  calc calculateDamage w + 6
      = ⌊qdamage w + (6 : Int)⌋ := by rw [calculateDamage_eq_floor, Int.floor_add_int]
    _ ≤ ⌊qdamage (w + 1)⌋ := Int.floor_le_floor (by push_cast; linarith)
    _ = calculateDamage (w + 1) := (calculateDamage_eq_floor _).symm

/-- C1: `calculateDamage` computes exactly the spec's floor formula, its
golden values are `damage(1) = 10` and `damage(3) = 24`, and it is
strictly increasing for `weaponLevel ≥ 1`. -/
theorem c1_calculateDamage_formula_golden_monotone (w : Int) (hw : 1 ≤ w) :
    calculateDamage w = damageSpecFormula w ∧
    calculateDamage 1 = 10 ∧
    calculateDamage 3 = 24 ∧
    calculateDamage w < calculateDamage (w + 1) := by
  refine ⟨?_, ?_, ?_, ?_⟩
  · unfold calculateDamage damageSpecFormula
    ring_nf
  · show (⌊qdamage 1⌋ : Int) = 10
    norm_num [qdamage]
  · show (⌊qdamage 3⌋ : Int) = 24
    norm_num [qdamage]
  · have h := calculateDamage_succ_ge w hw
    omega

/-- C1 witness: the theorem applied at `weaponLevel = 1`. -/
theorem c1_witness :
    calculateDamage 1 = damageSpecFormula 1 ∧
    calculateDamage 1 = 10 ∧
    calculateDamage 3 = 24 ∧
    calculateDamage 1 < calculateDamage (1 + 1) :=
  c1_calculateDamage_formula_golden_monotone 1 (by decide)

-- ## C4: the invulnerability window

/-- C4: after a hit that lands at `t1` (at least 0.6 s after the previous
landed hit at `t0`), `lastDamagedAt` becomes `t1`; a second intake call
less than 0.6 s later changes nothing at all (health and `lastDamagedAt`
both unchanged); a second call at least 0.6 s later lands as well,
updating `lastDamagedAt` to `t2`, and when the player survives both hits
each hit subtracts `max(1, 10 - 5·armorLevel)` from health. -/
theorem c4_invulnerability_window (s : GState) (t0 t1 t2 : Rat)
    (h1 : ¬ (t1 - t0 < 3/5)) :
    (takeDamage t1 t0 s).2 = t1 ∧
    (t2 - t1 < 3/5 →
      takeDamage t2 (takeDamage t1 t0 s).2 (takeDamage t1 t0 s).1 =
        takeDamage t1 t0 s) ∧
    (¬ (t2 - t1 < 3/5) →
      (takeDamage t2 (takeDamage t1 t0 s).2 (takeDamage t1 t0 s).1).2 = t2 ∧
      (0 < s.health - 2 * actualDamage s.armorLevel →
        (takeDamage t2 (takeDamage t1 t0 s).2 (takeDamage t1 t0 s).1).1.health =
          s.health - 2 * actualDamage s.armorLevel)) := by
  have hdmg : (1 : Int) ≤ actualDamage s.armorLevel := le_max_left _ _
  unfold takeDamage
  rw [if_neg h1]
  by_cases hdead : s.health - actualDamage s.armorLevel ≤ 0
  · rw [if_pos hdead]
    refine ⟨rfl, ?_, ?_⟩
    · intro hlt
      simp only [if_pos hlt]
    · intro hge
      refine ⟨?_, ?_⟩
      · simp only [if_neg hge]
        split <;> rfl
      · intro hsurv
        omega
  · rw [if_neg hdead]
    refine ⟨rfl, ?_, ?_⟩
    · intro hlt
      simp only [if_pos hlt]
    · intro hge
      refine ⟨?_, ?_⟩
      · simp only [if_neg hge]
        split <;> rfl
      · intro hsurv
        have h2 : ¬ (s.health - actualDamage s.armorLevel - actualDamage s.armorLevel ≤ 0) := by
          omega
        simp only [if_neg hge]
        rw [if_neg (by simpa using h2)]
        dsimp only
        omega

/-- C4 witness: the theorem at a concrete state and clock times, both for
a dropped second hit (`t2 = 1.2`, within 0.6 s) and for a landed second
hit (`t2 = 2`). -/
theorem c4_witness :
    ((takeDamage 1 0 ⟨1, 0, 100, 100, 1, 0, 0, 0⟩).2 = 1 ∧
      takeDamage (6/5) (takeDamage 1 0 ⟨1, 0, 100, 100, 1, 0, 0, 0⟩).2
          (takeDamage 1 0 ⟨1, 0, 100, 100, 1, 0, 0, 0⟩).1 =
        takeDamage 1 0 ⟨1, 0, 100, 100, 1, 0, 0, 0⟩) ∧
    ((takeDamage 2 (takeDamage 1 0 ⟨1, 0, 100, 100, 1, 0, 0, 0⟩).2
        (takeDamage 1 0 ⟨1, 0, 100, 100, 1, 0, 0, 0⟩).1).2 = 2 ∧
      (takeDamage 2 (takeDamage 1 0 ⟨1, 0, 100, 100, 1, 0, 0, 0⟩).2
        (takeDamage 1 0 ⟨1, 0, 100, 100, 1, 0, 0, 0⟩).1).1.health = 100 - 2 * 10) := by
  have h := c4_invulnerability_window ⟨1, 0, 100, 100, 1, 0, 0, 0⟩ 0 1 (6/5)
    (by norm_num)
  have h' := c4_invulnerability_window ⟨1, 0, 100, 100, 1, 0, 0, 0⟩ 0 1 2
    (by norm_num)
  refine ⟨⟨h.1, h.2.1 (by norm_num)⟩, ?_, ?_⟩
  · exact (h'.2.2 (by norm_num)).1
  · have := (h'.2.2 (by norm_num)).2 (by decide)
    simpa [actualDamage, calculateDefense] using this

-- ## C6: level-up threshold is checked only once per award

/-- C6: the code's `gainExperience` applies the level-up check a single
time.  At the failing input (level 1, experience 0, award 700) the code
leaves the player at level 2 even though the next threshold
(`experienceRequired(3) = 400 ≤ 700`) is still met, whereas the claim
requires re-checking until the threshold fails (level 3). -/
theorem c6_single_levelup_check :
    (gainExperience ⟨1, 0, 100, 100, 1, 0, 0, 0⟩ 700).level = 2 ∧
    (gainExperience ⟨1, 0, 100, 100, 1, 0, 0, 0⟩ 700).experience = 700 ∧
    getExperienceRequired ((gainExperience ⟨1, 0, 100, 100, 1, 0, 0, 0⟩ 700).level + 1) ≤
      (gainExperience ⟨1, 0, 100, 100, 1, 0, 0, 0⟩ 700).experience := by
  decide

-- ## C7: health stays in (0, maxHealth] through damage intake

/-- C7: one damage-intake call keeps `0 < health ≤ maxHealth` (given it
held before), and a landed hit that would drive health to ≤ 0 resets it
to exactly `maxHealth`. -/
theorem c7_full_heal_on_death (s : GState) (now last : Rat)
    (hmax : 0 < s.maxHealth) (hpos : 0 < s.health) (hle : s.health ≤ s.maxHealth) :
    (0 < (takeDamage now last s).1.health ∧
      (takeDamage now last s).1.health ≤ (takeDamage now last s).1.maxHealth) ∧
    (¬ (now - last < 3/5) → s.health - actualDamage s.armorLevel ≤ 0 →
      (takeDamage now last s).1.health = s.maxHealth) := by
  have hdmg : (1 : Int) ≤ actualDamage s.armorLevel := le_max_left _ _
  unfold takeDamage
  split_ifs with hif hdead
  · exact ⟨⟨hpos, hle⟩, fun h _ => absurd hif h⟩
  · exact ⟨⟨hmax, le_refl _⟩, fun _ _ => rfl⟩
  · refine ⟨⟨?_, ?_⟩, fun _ h => absurd h hdead⟩
    · dsimp only
      omega
    · dsimp only
      omega

/-- C7 witness: the theorem at a concrete state where the hit is lethal
(health 5, damage 10), showing the full heal back to `maxHealth`. -/
theorem c7_witness :
    (0 < (takeDamage 1 0 ⟨1, 0, 5, 100, 1, 0, 0, 0⟩).1.health ∧
      (takeDamage 1 0 ⟨1, 0, 5, 100, 1, 0, 0, 0⟩).1.health ≤
        (takeDamage 1 0 ⟨1, 0, 5, 100, 1, 0, 0, 0⟩).1.maxHealth) ∧
    (takeDamage 1 0 ⟨1, 0, 5, 100, 1, 0, 0, 0⟩).1.health = 100 := by
  have h := c7_full_heal_on_death ⟨1, 0, 5, 100, 1, 0, 0, 0⟩ 1 0
    (by decide) (by decide) (by decide)
  exact ⟨h.1, h.2 (by norm_num) (by decide)⟩

-- ## C2: damage application, death removal and kill rewards

theorem gainResources_fields (s : GState) :
    (gainResources s).meatCount = s.meatCount + 1 ∧
    (gainResources s).money = s.money + 5 ∧
    (gainResources s).experience = s.experience + 10 := by
  unfold gainResources gainExperience levelUp
  dsimp only
  split_ifs <;> simp

theorem damageEnemy_map_id (eid : Nat) (es : List Enemy) (newHp : Int) :
    (es.map (fun d => if d.id == eid then { d with hp := newHp } else d)).map Enemy.id =
      es.map Enemy.id := by
  rw [List.map_map]
  apply List.map_congr_left
  intro d _
  simp only [Function.comp]
  split <;> rfl

theorem damageEnemy_accounting (eid : Nat) (es : List Enemy) (s : GState) :
    (damageEnemy eid es s).2.meatCount - s.meatCount =
      (es.length : Int) - ((damageEnemy eid es s).1.length : Int) ∧
    (damageEnemy eid es s).2.money - s.money =
      5 * ((es.length : Int) - ((damageEnemy eid es s).1.length : Int)) ∧
    (damageEnemy eid es s).2.experience - s.experience =
      10 * ((es.length : Int) - ((damageEnemy eid es s).1.length : Int)) := by
  unfold damageEnemy
  cases hf : es.find? (fun d => d.id == eid) with
  | none => simp
  | some ed =>
    dsimp only
    by_cases hk : ed.hp - calculateDamage s.weaponLevel ≤ 0
    · rw [if_pos hk]
      have hmem : ed ∈ es := List.mem_of_find?_eq_some hf
      have hpe : (ed.id == eid) = true := by
        have h0 := List.find?_some hf
        simpa using h0
      have hmem1 :
          ({ ed with hp := ed.hp - calculateDamage s.weaponLevel } : Enemy) ∈
            es.map (fun d =>
              if d.id == eid then { d with hp := ed.hp - calculateDamage s.weaponLevel }
              else d) := by
        have h0 := List.mem_map_of_mem
          (fun d =>
            if d.id == eid then ({ d with hp := ed.hp - calculateDamage s.weaponLevel } : Enemy)
            else d) hmem
        dsimp only at h0
        rwa [if_pos hpe] at h0
      have hlenmap :
          (es.map (fun d =>
            if d.id == eid then { d with hp := ed.hp - calculateDamage s.weaponLevel }
            else d)).length = es.length := by simp
      have hpa0 :
          (fun d => d.id == eid)
            ({ ed with hp := ed.hp - calculateDamage s.weaponLevel } : Enemy) = true := by
        simpa using hpe
      have hlen2 := @List.length_eraseP_of_mem Enemy _ _ (fun d => d.id == eid) hmem1 hpa0
      have hpos : 0 < es.length := List.length_pos_of_mem hmem
      obtain ⟨hr1, hr2, hr3⟩ := gainResources_fields s
      rw [hr1, hr2, hr3, hlen2, hlenmap]
      have : 1 ≤ es.length := hpos
      push_cast [Nat.cast_sub this]
      constructor
      · ring
      constructor
      · ring
      · ring
    · rw [if_neg hk]
      simp

/-- C2: `damageEnemy` is a no-op on a stale reference; on a live enemy it
subtracts `calculateDamage(weaponLevel)` from its hp with no lower clamp,
leaving the state untouched while the enemy survives; a killing blow
removes the enemy from the live collection and grants exactly one reward
cycle (+1 meat, +5 money, +10 experience); and across a multi-target
cleave the rewards granted equal one cycle per enemy removed. -/
theorem c2_damageEnemy_semantics (eid : Nat) (es : List Enemy) (s : GState) :
    (es.find? (fun d => d.id == eid) = none → damageEnemy eid es s = (es, s)) ∧
    (∀ ed, es.find? (fun d => d.id == eid) = some ed →
      0 < ed.hp - calculateDamage s.weaponLevel →
      (damageEnemy eid es s).2 = s ∧
      Enemy.mk ed.id (ed.hp - calculateDamage s.weaponLevel) ∈ (damageEnemy eid es s).1) ∧
    (∀ ed, es.find? (fun d => d.id == eid) = some ed →
      ed.hp - calculateDamage s.weaponLevel ≤ 0 →
      (es.map Enemy.id).Nodup →
      (∀ d ∈ (damageEnemy eid es s).1, d.id ≠ eid) ∧
      (damageEnemy eid es s).2.meatCount = s.meatCount + 1 ∧
      (damageEnemy eid es s).2.money = s.money + 5 ∧
      (damageEnemy eid es s).2.experience = s.experience + 10) ∧
    (∀ ids,
      (cleave ids es s).2.meatCount - s.meatCount =
        (es.length : Int) - ((cleave ids es s).1.length : Int) ∧
      (cleave ids es s).2.money - s.money =
        5 * ((es.length : Int) - ((cleave ids es s).1.length : Int)) ∧
      (cleave ids es s).2.experience - s.experience =
        10 * ((es.length : Int) - ((cleave ids es s).1.length : Int))) := by
  refine ⟨?_, ?_, ?_, ?_⟩
  · intro hnone
    unfold damageEnemy
    rw [hnone]
  · intro ed hf hsurv
    have hpe : (ed.id == eid) = true := by
      have h0 := List.find?_some hf
      simpa using h0
    have hmem : ed ∈ es := List.mem_of_find?_eq_some hf
    unfold damageEnemy
    rw [hf]
    dsimp only
    rw [if_neg (by omega)]
    refine ⟨rfl, ?_⟩
    have h0 := List.mem_map_of_mem
      (fun d =>
        if d.id == eid then ({ d with hp := ed.hp - calculateDamage s.weaponLevel } : Enemy)
        else d) hmem
    dsimp only at h0
    rw [if_pos hpe] at h0
    exact h0
  · intro ed hf hkill hnodup
    have hpe : (ed.id == eid) = true := by
      have h0 := List.find?_some hf
      simpa using h0
    have hmem : ed ∈ es := List.mem_of_find?_eq_some hf
    have heid : ed.id = eid := by simpa using hpe
    unfold damageEnemy
    rw [hf]
    dsimp only
    rw [if_pos hkill]
    obtain ⟨hr1, hr2, hr3⟩ := gainResources_fields s
    refine ⟨?_, hr1, hr2, hr3⟩
    intro d hd
    -- the updated list, before removal
    set es1 := es.map (fun d =>
      if d.id == eid then ({ d with hp := ed.hp - calculateDamage s.weaponLevel } : Enemy)
      else d) with hes1
    have hmem1 :
        ({ ed with hp := ed.hp - calculateDamage s.weaponLevel } : Enemy) ∈ es1 := by
      have h0 := List.mem_map_of_mem
        (fun d =>
          if d.id == eid then ({ d with hp := ed.hp - calculateDamage s.weaponLevel } : Enemy)
          else d) hmem
      dsimp only at h0
      rw [if_pos hpe] at h0
      exact h0
    have hnodup1 : (es1.map Enemy.id).Nodup := by
      rw [hes1, damageEnemy_map_id]
      exact hnodup
    have hpa0 : (fun d => d.id == eid)
        ({ ed with hp := ed.hp - calculateDamage s.weaponLevel } : Enemy) = true := by
      simpa using hpe
    obtain ⟨a, l₁, l₂, hl₁, hpa, heq, herase⟩ :=
      @List.exists_of_eraseP Enemy (fun d => d.id == eid) es1 _ hmem1 hpa0
    rw [herase] at hd
    have haid : a.id = eid := by simpa using hpa
    rcases List.mem_append.mp hd with h1 | h2
    · have := hl₁ d h1
      simpa using this
    · have hnd : ((l₁.map Enemy.id) ++ a.id :: (l₂.map Enemy.id)).Nodup := by
        have h0 := hnodup1
        rw [heq] at h0
        simpa using h0
      have hcons : (a.id :: (l₂.map Enemy.id)).Nodup := (List.nodup_append.mp hnd).2.1
      have hnotmem : a.id ∉ l₂.map Enemy.id := (List.nodup_cons.mp hcons).1
      intro hdeq
      apply hnotmem
      have hda : d.id = a.id := by rw [hdeq, haid]
      rw [← hda]
      exact List.mem_map_of_mem Enemy.id h2
  · intro ids
    induction ids generalizing es s with
    | nil => simp [cleave]
    | cons eid rest ih =>
      have hstep := damageEnemy_accounting eid es s
      have hrec := ih (damageEnemy eid es s).1 (damageEnemy eid es s).2
      have hcl : cleave (eid :: rest) es s =
          cleave rest (damageEnemy eid es s).1 (damageEnemy eid es s).2 := rfl
      rw [hcl]
      obtain ⟨a1, a2, a3⟩ := hstep
      obtain ⟨b1, b2, b3⟩ := hrec
      refine ⟨by omega, by omega, by omega⟩

/-- C2 witness: the theorem applied with a stale reference (empty
collection), with a surviving enemy (hp 100, damage 10), and with a
killing blow (hp 5, damage 10) followed by a one-enemy cleave. -/
theorem c2_witness :
    damageEnemy 0 [] ⟨1, 0, 100, 100, 1, 0, 0, 0⟩ = ([], ⟨1, 0, 100, 100, 1, 0, 0, 0⟩) ∧
    ((damageEnemy 1 [⟨1, 100⟩] ⟨1, 0, 100, 100, 1, 0, 0, 0⟩).2 = ⟨1, 0, 100, 100, 1, 0, 0, 0⟩ ∧
      Enemy.mk 1 90 ∈ (damageEnemy 1 [⟨1, 100⟩] ⟨1, 0, 100, 100, 1, 0, 0, 0⟩).1) ∧
    ((∀ d ∈ (damageEnemy 1 [⟨1, 5⟩] ⟨1, 0, 100, 100, 1, 0, 0, 0⟩).1, d.id ≠ 1) ∧
      (damageEnemy 1 [⟨1, 5⟩] ⟨1, 0, 100, 100, 1, 0, 0, 0⟩).2.meatCount = 1 ∧
      (damageEnemy 1 [⟨1, 5⟩] ⟨1, 0, 100, 100, 1, 0, 0, 0⟩).2.money = 5 ∧
      (damageEnemy 1 [⟨1, 5⟩] ⟨1, 0, 100, 100, 1, 0, 0, 0⟩).2.experience = 10) ∧
    ((cleave [1] [⟨1, 5⟩] ⟨1, 0, 100, 100, 1, 0, 0, 0⟩).2.meatCount - 0 =
        ((1 : Nat) : Int) - ((cleave [1] [⟨1, 5⟩] ⟨1, 0, 100, 100, 1, 0, 0, 0⟩).1.length : Int)) := by
  have hc : calculateDamage 1 = 10 := by
    rw [calculateDamage_eq_floor]
    norm_num [qdamage]
  have h0 := c2_damageEnemy_semantics 0 [] ⟨1, 0, 100, 100, 1, 0, 0, 0⟩
  have h1 := c2_damageEnemy_semantics 1 [⟨1, 100⟩] ⟨1, 0, 100, 100, 1, 0, 0, 0⟩
  have h2 := c2_damageEnemy_semantics 1 [⟨1, 5⟩] ⟨1, 0, 100, 100, 1, 0, 0, 0⟩
  refine ⟨h0.1 (by decide), ?_, ?_, ?_⟩
  · have h := h1.2.1 ⟨1, 100⟩ (by decide) (by norm_num [hc])
    exact ⟨h.1, by simpa [hc] using h.2⟩
  · have h := h2.2.2.1 ⟨1, 5⟩ (by decide) (by norm_num [hc]) (by decide)
    exact ⟨h.1, h.2.1, h.2.2.1, h.2.2.2⟩
  · have h := (h2.2.2.2 [1]).1
    simpa using h

-- ## C8: the forge weapon-upgrade tick

/-- Item tags of the player's head-mounted stack (`userData.meatType`). -/
inductive Item where
  | raw
  | cooked
  | coin
  deriving DecidableEq, Repr

/-- One scan of the stack from the top (highest index) downwards for the
first item of type `t`, removing it — the inner loop of
`removeCoinStack` / `removeRawMeatStack`.  The stack list is in child
order, index 0 first, so the last matching element is removed. -/
def removeLastItem (t : Item) : List Item → Option (List Item)
  | [] => none
  | x :: xs =>
    match removeLastItem t xs with
    | some xs1 => some (x :: xs1)
    | none => if x = t then some xs else none

/-- The outer loop of `removeCoinStack` (`CoinStackManager.ts`): removes
up to `count` items of type `t`, stopping early when none is left, and
returns the number actually removed together with the remaining stack. -/
def removeStack (t : Item) : Nat → List Item → Nat × List Item
  | 0, s => (0, s)
  | n + 1, s =>
    match removeLastItem t s with
    | none => (0, s)
    | some s1 =>
      let r := removeStack t n s1
      (r.1 + 1, r.2)

/-- A static economic-zone rectangle (`CollisionBox`). -/
structure Box where
  minX : Rat
  maxX : Rat
  minZ : Rat
  maxZ : Rat
  deriving DecidableEq, Repr

/-- The margin-expanded residency test used by every economic zone
(`margin = 0.6`). -/
def insideWithMargin (b : Box) (px pz : Rat) : Prop :=
  b.minX - 3/5 ≤ px ∧ px ≤ b.maxX + 3/5 ∧ b.minZ - 3/5 ≤ pz ∧ pz ≤ b.maxZ + 3/5

instance (b : Box) (px pz : Rat) : Decidable (insideWithMargin b px pz) := by
  unfold insideWithMargin
  infer_instance

/-- `Game.updateWeaponUpgradeProcess` (`part_009`): when the player is
resident in the forge box (with margin) and the 1 s per-zone cooldown has
elapsed, and `money ≥ 5`, five coins are removed from the head stack; the
upgrade (−5 money, +1 weaponLevel, cooldown refresh) happens only when
five coins were actually removed — but the coins already removed are not
put back otherwise.  Returns (money, weaponLevel, stack, lastWeaponUpgradeAt). -/
def updateWeaponUpgradeProcess (b : Box) (px pz : Rat) (now lastAt : Rat)
    (money weaponLevel : Int) (stack : List Item) :
    Int × Int × List Item × Rat :=
  if ¬ insideWithMargin b px pz then
    (money, weaponLevel, stack, lastAt)
  else if now - lastAt < 1 then
    (money, weaponLevel, stack, lastAt)
  else if 5 ≤ money then
    let r := removeStack Item.coin 5 stack
    if 5 ≤ r.1 then
      (money - 5, weaponLevel + 1, r.2, now)
    else
      (money, weaponLevel, r.2, lastAt)
  else
    (money, weaponLevel, stack, lastAt)

theorem removeLastItem_count (t : Item) (s : List Item) :
    (removeLastItem t s = none → s.count t = 0) ∧
    (∀ s1, removeLastItem t s = some s1 → s.count t = s1.count t + 1) := by
  induction s with
  | nil => exact ⟨fun _ => rfl, fun s1 h => by simp [removeLastItem] at h⟩
  | cons x xs ih =>
    constructor
    · intro h
      unfold removeLastItem at h
      cases hr : removeLastItem t xs with
      | some xs1 => rw [hr] at h; simp at h
      | none =>
        rw [hr] at h
        by_cases hx : x = t
        · rw [if_pos hx] at h; simp at h
        · rw [if_neg hx] at h
          have := ih.1 hr
          simp [List.count_cons, this, hx]
    · intro s1 h
      unfold removeLastItem at h
      cases hr : removeLastItem t xs with
      | some xs1 =>
        rw [hr] at h
        have hx := ih.2 xs1 hr
        injection h with h
        subst h
        simp [List.count_cons, hx]
        omega
      | none =>
        rw [hr] at h
        by_cases hx : x = t
        · rw [if_pos hx] at h
          injection h with h
          subst h
          have := ih.1 hr
          simp [List.count_cons, this, hx]
        · rw [if_neg hx] at h
          simp at h

theorem removeStack_le_count (t : Item) (n : Nat) (s : List Item) :
    (removeStack t n s).1 ≤ s.count t := by
  induction n generalizing s with
  | zero => simp [removeStack]
  | succ m ih =>
    unfold removeStack
    cases hr : removeLastItem t s with
    | none => simp
    | some s1 =>
      have hc := (removeLastItem_count t s).2 s1 hr
      have := ih s1
      dsimp only
      omega

/-- C8 counterexample: with `money = 5` but only four coins on the head
stack, a forge-upgrade attempt (resident, cooldown elapsed) leaves
`weaponLevel` and `money` unchanged but strips all four coins from the
stack — the claim's "head-stack coin count left unchanged" is false. -/
theorem c8_counterexample :
    (List.count Item.coin [Item.coin, Item.coin, Item.coin, Item.coin] = 4) ∧
    updateWeaponUpgradeProcess ⟨0, 10, 0, 10⟩ 5 5 10 0 5 1
        [Item.coin, Item.coin, Item.coin, Item.coin] =
      (5, 1, [], 0) := by
  have hin : insideWithMargin ⟨0, 10, 0, 10⟩ 5 5 := by
    unfold insideWithMargin
    norm_num
  constructor
  · decide
  · unfold updateWeaponUpgradeProcess
    rw [if_neg (fun h => h hin), if_neg (by norm_num : ¬ ((10 : Rat) - 0 < 1)),
      if_pos (by norm_num : (5 : Int) ≤ 5)]
    decide

/-- C8 (amended): a forge-upgrade attempt with `money < 5` silently does
nothing (weaponLevel, money, head stack and cooldown all unchanged) — in
particular a player holding 4 coins with 4 money keeps everything; when
`money ≥ 5` but the head stack holds fewer than five coins, `weaponLevel`
and `money` are still unchanged, but the head-stack coins that were
removed by the attempt are not restored. -/
theorem c8_insufficient_funds_noop (b : Box) (px pz now lastAt : Rat)
    (money weaponLevel : Int) (stack : List Item) :
    (money < 5 →
      updateWeaponUpgradeProcess b px pz now lastAt money weaponLevel stack =
        (money, weaponLevel, stack, lastAt)) ∧
    (stack.count Item.coin < 5 →
      (updateWeaponUpgradeProcess b px pz now lastAt money weaponLevel stack).1 = money ∧
      (updateWeaponUpgradeProcess b px pz now lastAt money weaponLevel stack).2.1 =
        weaponLevel) := by
  constructor
  · intro hm
    unfold updateWeaponUpgradeProcess
    split
    · rfl
    split
    · rfl
    rw [if_neg (by omega)]
  · intro hs
    have hle := removeStack_le_count Item.coin 5 stack
    unfold updateWeaponUpgradeProcess
    split
    · exact ⟨rfl, rfl⟩
    split
    · exact ⟨rfl, rfl⟩
    split
    · rw [if_neg (by omega)]
      exact ⟨rfl, rfl⟩
    · exact ⟨rfl, rfl⟩

/-- C8 witness: the amended theorem at the concrete scenario of the
claim — four coins, four money, resident in the forge for 2 s — and at
the partial-deduction input of the counterexample. -/
theorem c8_witness :
    updateWeaponUpgradeProcess ⟨0, 10, 0, 10⟩ 5 5 10 0 4 1
        [Item.coin, Item.coin, Item.coin, Item.coin] =
      (4, 1, [Item.coin, Item.coin, Item.coin, Item.coin], 0) ∧
    ((updateWeaponUpgradeProcess ⟨0, 10, 0, 10⟩ 5 5 10 0 5 1
        [Item.coin, Item.coin, Item.coin, Item.coin]).1 = 5 ∧
      (updateWeaponUpgradeProcess ⟨0, 10, 0, 10⟩ 5 5 10 0 5 1
        [Item.coin, Item.coin, Item.coin, Item.coin]).2.1 = 1) := by
  constructor
  · exact (c8_insufficient_funds_noop ⟨0, 10, 0, 10⟩ 5 5 10 0 4 1
      [Item.coin, Item.coin, Item.coin, Item.coin]).1 (by decide)
  · exact (c8_insufficient_funds_noop ⟨0, 10, 0, 10⟩ 5 5 10 0 5 1
      [Item.coin, Item.coin, Item.coin, Item.coin]).2 (by decide)

-- ## Planar geometry of the enemy manager

/-- A position on the horizontal plane (the `x`/`z` components of a
`THREE.Vector3`; the vertical component carries no gameplay state). -/
structure Pos where
  x : Real
  z : Real

/-- Distance of a position from the origin:
`Math.sqrt(x * x + z * z)`. -/
noncomputable def pnorm (p : Pos) : Real :=
  Real.sqrt (p.x * p.x + p.z * p.z)

/-- Euclidean distance between two positions (`Vector3.distanceTo`
restricted to the plane). -/
noncomputable def pdist (a b : Pos) : Real :=
  Real.sqrt ((a.x - b.x) * (a.x - b.x) + (a.z - b.z) * (a.z - b.z))

/-- Bridge into `Complex` to reuse the triangle inequality. -/
def toC (p : Pos) : Complex :=
  ⟨p.x, p.z⟩

theorem pnorm_eq_abs (p : Pos) : pnorm p = Complex.abs (toC p) := by
  rw [Complex.abs_apply, Complex.normSq_apply]
  rfl

theorem pdist_eq_abs (a b : Pos) : pdist a b = Complex.abs (toC a - toC b) := by
  rw [Complex.abs_apply, Complex.normSq_apply]
  rfl

theorem pnorm_nonneg (p : Pos) : 0 ≤ pnorm p :=
  Real.sqrt_nonneg _

theorem pdist_nonneg (a b : Pos) : 0 ≤ pdist a b :=
  Real.sqrt_nonneg _

/-- Reverse triangle inequality: a point at distance `d` from `b` is at
distance at least `pnorm b - d` from the origin. -/
theorem pnorm_sub_pdist_le (a b : Pos) : pnorm b - pdist a b ≤ pnorm a := by
  rw [pnorm_eq_abs, pnorm_eq_abs, pdist_eq_abs]
  have h := Complex.abs.add_le (toC a) (toC b - toC a)
  have hsub : Complex.abs (toC a - toC b) = Complex.abs (toC b - toC a) :=
    Complex.abs.map_sub _ _
  rw [hsub]
  have : toC a + (toC b - toC a) = toC b := by ring
  rw [this] at h
  linarith

/-- `EnemyManager.enforceSafeZoneBoundary` (`part_004`): an enemy closer
than `safeZoneRadius + 2 = 6` to the origin is projected radially onto
the radius-6 circle.  The source computes
`angle = atan2(z, x); x = cos(angle)*6; z = sin(angle)*6`; for a nonzero
position `cos(atan2(z,x)) = x/r` and `sin(atan2(z,x)) = z/r` with
`r = sqrt(x²+z²)`, and `atan2(0,0) = 0` sends the origin to `(6, 0)`. -/
noncomputable def enforceSafeZoneBoundary (p : Pos) : Pos :=
  if pnorm p < 6 then
    if pnorm p = 0 then ⟨6, 0⟩
    else ⟨p.x / pnorm p * 6, p.z / pnorm p * 6⟩
  else p

/-- `EnemyManager.enforcePlayerCollision` (`part_004`): an enemy strictly
between 0 and `playerCollisionRadius = 3.5` units from the player is
pushed along the player→enemy axis to exactly 3.5 units. -/
noncomputable def enforcePlayerCollision (playerPos p : Pos) : Pos :=
  if pdist p playerPos < 7/2 ∧ 0 < pdist p playerPos then
    ⟨p.x + (p.x - playerPos.x) / pdist p playerPos * (7/2 - pdist p playerPos),
      p.z + (p.z - playerPos.z) / pdist p playerPos * (7/2 - pdist p playerPos)⟩
  else p

theorem pdist_def (a b : Pos) :
    pdist a b = Real.sqrt ((a.x - b.x) * (a.x - b.x) + (a.z - b.z) * (a.z - b.z)) := rfl

theorem pnorm_scale (c : Real) (p : Pos) :
    pnorm ⟨c * p.x, c * p.z⟩ = |c| * pnorm p := by
  unfold pnorm
  dsimp only
  rw [show c * p.x * (c * p.x) + c * p.z * (c * p.z) = c ^ 2 * (p.x * p.x + p.z * p.z) by ring]
  rw [Real.sqrt_mul (sq_nonneg c), Real.sqrt_sq_eq_abs]

theorem six_le_pnorm_enforceSafeZoneBoundary (p : Pos) :
    6 ≤ pnorm (enforceSafeZoneBoundary p) := by
  unfold enforceSafeZoneBoundary
  split_ifs with h1 h2
  · have h6 : pnorm (⟨6, 0⟩ : Pos) = 6 := by
      unfold pnorm
      dsimp only
      rw [show (6 * 6 + 0 * 0 : Real) = 6 * 6 by ring, Real.sqrt_mul_self (by norm_num)]
    rw [h6]
  · have hrpos : 0 < pnorm p := lt_of_le_of_ne (pnorm_nonneg p) (Ne.symm h2)
    have hform : (⟨p.x / pnorm p * 6, p.z / pnorm p * 6⟩ : Pos) =
        ⟨(6 / pnorm p) * p.x, (6 / pnorm p) * p.z⟩ := by
      have e1 : p.x / pnorm p * 6 = (6 / pnorm p) * p.x := by ring
      have e2 : p.z / pnorm p * 6 = (6 / pnorm p) * p.z := by ring
      rw [e1, e2]
    rw [hform, pnorm_scale, abs_of_nonneg (le_of_lt (by positivity)),
      div_mul_cancel₀ 6 (ne_of_gt hrpos)]
  · linarith [not_lt.mp h1]

/-- A triggered player-collision push leaves the enemy at distance
exactly 3.5 from the player. -/
theorem pdist_enforcePlayerCollision (playerPos p : Pos)
    (h : pdist p playerPos < 7/2 ∧ 0 < pdist p playerPos) :
    pdist (enforcePlayerCollision playerPos p) playerPos = 7/2 := by
  have hd0 : pdist p playerPos ≠ 0 := ne_of_gt h.2
  have hAB : (p.x - playerPos.x) * (p.x - playerPos.x) +
      (p.z - playerPos.z) * (p.z - playerPos.z) =
      pdist p playerPos * pdist p playerPos := by
    rw [pdist_def, Real.mul_self_sqrt (add_nonneg (mul_self_nonneg _) (mul_self_nonneg _))]
  have key : ∀ (A B d : Real), d ≠ 0 → A * A + B * B = d * d →
      A * (7/2) / d * (A * (7/2) / d) + B * (7/2) / d * (B * (7/2) / d) =
        (7/2) * (7/2) := by
    intro A B d hd hab
    field_simp
    linear_combination 196 * hab
  unfold enforcePlayerCollision
  rw [if_pos h]
  rw [pdist_def]
  dsimp only
  have hE1 : p.x + (p.x - playerPos.x) / pdist p playerPos * (7/2 - pdist p playerPos)
      - playerPos.x = (p.x - playerPos.x) * (7/2) / pdist p playerPos := by
    field_simp
    ring
  have hE2 : p.z + (p.z - playerPos.z) / pdist p playerPos * (7/2 - pdist p playerPos)
      - playerPos.z = (p.z - playerPos.z) * (7/2) / pdist p playerPos := by
    field_simp
    ring
  rw [hE1, hE2, key _ _ _ hd0 hAB, Real.sqrt_mul_self (by norm_num)]

/-- `EnemyAI.chasePlayer` movement: step of length `enemySpeed(2.0)·dt`
along the normalized enemy→player direction (`THREE.Vector3.normalize`
maps the zero vector to itself). -/
noncomputable def chaseMove (dt : Real) (playerPos p : Pos) : Pos :=
  if pdist playerPos p = 0 then p
  else ⟨p.x + (playerPos.x - p.x) / pdist playerPos p * (2 * dt),
    p.z + (playerPos.z - p.z) / pdist playerPos p * (2 * dt)⟩

/-- `EnemyAI.wanderRandomly` movement towards the current wander target
at half speed (`enemySpeed · 0.5 · dt`); target resampling is driven by
`Math.random` and changes only the target, not this step's arithmetic. -/
noncomputable def wanderMove (dt : Real) (target p : Pos) : Pos :=
  if pdist target p = 0 then p
  else ⟨p.x + (target.x - p.x) / pdist target p * (1 * dt),
    p.z + (target.z - p.z) / pdist target p * (1 * dt)⟩

/-- Per-enemy containment inside `updateSingleEnemy` (`part_004`): after
movement the callback applies `enforceSafeZoneBoundary` first and
`enforcePlayerCollision` second. -/
noncomputable def updateEnemyPosition (playerPos moved : Pos) : Pos :=
  enforcePlayerCollision playerPos (enforceSafeZoneBoundary moved)

/-- One inner iteration of `applyEnemySeparation` on the pair `(i, j)`:
if the two enemies overlap (`0 < distSq < separationRadius²`), both are
pushed apart by `(overlap/dist)·0.5·separationStrength(2.5)·dt` and each
is re-clamped by `enforceSafeZoneBoundary`.  (`Math.sqrt(distSq) ||
0.0001` never takes the fallback since `distSq > 0`.) -/
noncomputable def sepStep (dt : Real) (ps : List Pos) (i j : Nat) : List Pos :=
  match ps[i]?, ps[j]? with
  | some a, some b =>
    if 0 < (a.x - b.x) * (a.x - b.x) + (a.z - b.z) * (a.z - b.z) ∧
        (a.x - b.x) * (a.x - b.x) + (a.z - b.z) * (a.z - b.z) < (7/2) * (7/2) then
      let dist := Real.sqrt ((a.x - b.x) * (a.x - b.x) + (a.z - b.z) * (a.z - b.z))
      let overlap := ((7/2) - dist) / dist
      let pushX := (a.x - b.x) * overlap * (1/2) * (5/2) * dt
      let pushZ := (a.z - b.z) * overlap * (1/2) * (5/2) * dt
      (ps.set i (enforceSafeZoneBoundary ⟨a.x + pushX, a.z + pushZ⟩)).set j
        (enforceSafeZoneBoundary ⟨b.x - pushX, b.z - pushZ⟩)
    else ps
  | _, _ => ps

/-- Index pairs `(i, j)` with `i < j`, in the iteration order of the
nested loops of `applyEnemySeparation`. -/
def pairList (n : Nat) : List (Nat × Nat) :=
  ((List.range n).map (fun i =>
    ((List.range n).filter (fun j => i < j)).map (fun j => (i, j)))).flatten

/-- `EnemyManager.applyEnemySeparation` (`part_004`): the O(n²) pairwise
separation pass over all enemy pairs. -/
noncomputable def applyEnemySeparation (dt : Real) (ps : List Pos) : List Pos :=
  (pairList ps.length).foldl (fun acc pr => sepStep dt acc pr.1 pr.2) ps

/-- Enemy positions at the end of one `EnemyManager.update` tick, given
the (arbitrary) mid-tick positions the chase/wander movement produced:
per-enemy containment (safe-zone clamp then player collision) followed by
the pairwise separation pass. -/
noncomputable def endOfTickPositions (dt : Real) (playerPos : Pos) (moved : List Pos) :
    List Pos :=
  applyEnemySeparation dt (moved.map (updateEnemyPosition playerPos))

theorem sepStep_preserves (dt : Real) (ps : List Pos) (i j : Nat)
    (h : ∀ q ∈ ps, 6 ≤ pnorm q) :
    ∀ q ∈ sepStep dt ps i j, 6 ≤ pnorm q := by
  unfold sepStep
  split
  · split
    · intro q hq
      rcases List.mem_or_eq_of_mem_set hq with hq1 | rfl
      · rcases List.mem_or_eq_of_mem_set hq1 with hq2 | rfl
        · exact h q hq2
        · exact six_le_pnorm_enforceSafeZoneBoundary _
      · exact six_le_pnorm_enforceSafeZoneBoundary _
    · exact h
  · exact h

theorem foldl_sepStep_preserves (dt : Real) (l : List (Nat × Nat)) :
    ∀ ps, (∀ q ∈ ps, 6 ≤ pnorm q) →
      ∀ q ∈ l.foldl (fun acc pr => sepStep dt acc pr.1 pr.2) ps, 6 ≤ pnorm q := by
  induction l with
  | nil =>
    intro ps h q hq
    exact h q hq
  | cons pr rest ih =>
    intro ps h
    rw [List.foldl_cons]
    exact ih _ (sepStep_preserves dt ps pr.1 pr.2 h)

theorem updateEnemyPosition_ge6 (playerPos m : Pos) (hp : 19/2 ≤ pnorm playerPos) :
    6 ≤ pnorm (updateEnemyPosition playerPos m) := by
  unfold updateEnemyPosition
  by_cases hc : pdist (enforceSafeZoneBoundary m) playerPos < 7/2 ∧
      0 < pdist (enforceSafeZoneBoundary m) playerPos
  · have hd := pdist_enforcePlayerCollision playerPos (enforceSafeZoneBoundary m) hc
    have ht := pnorm_sub_pdist_le
      (enforcePlayerCollision playerPos (enforceSafeZoneBoundary m)) playerPos
    rw [hd] at ht
    linarith
  · unfold enforcePlayerCollision
    rw [if_neg hc]
    exact six_le_pnorm_enforceSafeZoneBoundary m

-- ## C3: the end-of-tick safe-zone invariant

/-- C3 counterexample: a single enemy at `(6, 0)` (exactly on the
boundary circle, unmoved by a `dt = 0` chase step towards the player at
`(8, 0)`) ends the tick at `(4.5, 0)` — distance 4.5 < 6 from the
origin — because the player-collision containment runs after the
safe-zone clamp and pushes the enemy inwards. -/
theorem c3_counterexample :
    chaseMove 0 ⟨8, 0⟩ ⟨6, 0⟩ = ⟨6, 0⟩ ∧
    endOfTickPositions 1 ⟨8, 0⟩ [⟨6, 0⟩] = [⟨9/2, 0⟩] ∧
    pnorm ⟨9/2, 0⟩ < 6 := by
  have hd86 : pdist (⟨8, 0⟩ : Pos) ⟨6, 0⟩ = 2 := by
    rw [pdist_def]
    rw [show ((⟨8, 0⟩ : Pos).x - (⟨6, 0⟩ : Pos).x) * ((⟨8, 0⟩ : Pos).x - (⟨6, 0⟩ : Pos).x) +
      ((⟨8, 0⟩ : Pos).z - (⟨6, 0⟩ : Pos).z) * ((⟨8, 0⟩ : Pos).z - (⟨6, 0⟩ : Pos).z) =
      2 * 2 by norm_num]
    exact Real.sqrt_mul_self (by norm_num)
  have hd68 : pdist (⟨6, 0⟩ : Pos) ⟨8, 0⟩ = 2 := by
    rw [pdist_def]
    rw [show ((⟨6, 0⟩ : Pos).x - (⟨8, 0⟩ : Pos).x) * ((⟨6, 0⟩ : Pos).x - (⟨8, 0⟩ : Pos).x) +
      ((⟨6, 0⟩ : Pos).z - (⟨8, 0⟩ : Pos).z) * ((⟨6, 0⟩ : Pos).z - (⟨8, 0⟩ : Pos).z) =
      2 * 2 by norm_num]
    exact Real.sqrt_mul_self (by norm_num)
  have hn6 : pnorm (⟨6, 0⟩ : Pos) = 6 := by
    unfold pnorm
    rw [show ((⟨6, 0⟩ : Pos).x * (⟨6, 0⟩ : Pos).x + (⟨6, 0⟩ : Pos).z * (⟨6, 0⟩ : Pos).z) =
      6 * 6 by norm_num]
    exact Real.sqrt_mul_self (by norm_num)
  have hn92 : pnorm (⟨9/2, 0⟩ : Pos) = 9/2 := by
    unfold pnorm
    rw [show ((⟨9/2, 0⟩ : Pos).x * (⟨9/2, 0⟩ : Pos).x +
      (⟨9/2, 0⟩ : Pos).z * (⟨9/2, 0⟩ : Pos).z) = (9/2) * (9/2) by norm_num]
    exact Real.sqrt_mul_self (by norm_num)
  have hupd : updateEnemyPosition ⟨8, 0⟩ ⟨6, 0⟩ = ⟨9/2, 0⟩ := by
    unfold updateEnemyPosition
    have hclamp : enforceSafeZoneBoundary ⟨6, 0⟩ = ⟨6, 0⟩ := by
      unfold enforceSafeZoneBoundary
      rw [hn6, if_neg (by norm_num : ¬ (6 : Real) < 6)]
    rw [hclamp]
    unfold enforcePlayerCollision
    rw [hd68, if_pos (by norm_num : (2 : Real) < 7/2 ∧ (0 : Real) < 2)]
    simp only [Pos.mk.injEq]
    norm_num
  refine ⟨?_, ?_, ?_⟩
  · unfold chaseMove
    rw [hd86, if_neg (by norm_num : ¬ (2 : Real) = 0)]
    simp only [Pos.mk.injEq]
    norm_num
  · unfold endOfTickPositions applyEnemySeparation
    rw [List.map_cons, List.map_nil, hupd]
    rw [show pairList ([(⟨9/2, 0⟩ : Pos)].length) = [] by decide]
    rw [List.foldl_nil]
  · rw [hn92]
    norm_num

/-- C3 (amended): the claim holds whenever the player is at least
`9.5 = 6 + playerCollisionRadius` from the origin: then every live
enemy's distance from the origin is at least 6 at the end of the tick,
whatever the mid-tick movement did.  (In general the player-collision
step — which runs after the safe-zone clamp — can push an enemy below
radius 6, as the counterexample shows.) -/
theorem c3_safe_zone_invariant_amended (dt : Real) (playerPos : Pos) (moved : List Pos)
    (hp : 19/2 ≤ pnorm playerPos) :
    ∀ q ∈ endOfTickPositions dt playerPos moved, 6 ≤ pnorm q := by
  unfold endOfTickPositions applyEnemySeparation
  apply foldl_sepStep_preserves
  intro q hq
  rcases List.mem_map.mp hq with ⟨m, _, rfl⟩
  exact updateEnemyPosition_ge6 playerPos m hp

/-- C3 witness: the amended theorem at a player on the x-axis at
distance 10 ≥ 9.5 and a single mid-tick enemy position `(6, 0)`. -/
theorem c3_witness :
    (19/2 : Real) ≤ pnorm ⟨10, 0⟩ ∧
    ∀ q ∈ endOfTickPositions 1 ⟨10, 0⟩ [⟨6, 0⟩], 6 ≤ pnorm q := by
  have hn10 : pnorm (⟨10, 0⟩ : Pos) = 10 := by
    unfold pnorm
    rw [show ((⟨10, 0⟩ : Pos).x * (⟨10, 0⟩ : Pos).x +
      (⟨10, 0⟩ : Pos).z * (⟨10, 0⟩ : Pos).z) = 10 * 10 by norm_num]
    exact Real.sqrt_mul_self (by norm_num)
  have hp : (19/2 : Real) ≤ pnorm ⟨10, 0⟩ := by
    rw [hn10]
    norm_num
  exact ⟨hp, c3_safe_zone_invariant_amended 1 ⟨10, 0⟩ [⟨6, 0⟩] hp⟩

-- ## C10: the guarded player-collision division

/-- C10: an enemy coincident with the player (`distance = 0`) is left
unchanged by `enforcePlayerCollision`; conversely, any position change
implies the guard `0 < distance < 3.5` held, so the division by
`distance` is always guarded. -/
theorem c10_collision_guard (playerPos p : Pos) :
    (pdist p playerPos = 0 → enforcePlayerCollision playerPos p = p) ∧
    (enforcePlayerCollision playerPos p ≠ p →
      0 < pdist p playerPos ∧ pdist p playerPos < 7/2) := by
  constructor
  · intro h0
    unfold enforcePlayerCollision
    rw [if_neg]
    intro hc
    rw [h0] at hc
    exact lt_irrefl 0 hc.2
  · intro hne
    by_cases hc : pdist p playerPos < 7/2 ∧ 0 < pdist p playerPos
    · exact ⟨hc.2, hc.1⟩
    · exfalso
      apply hne
      unfold enforcePlayerCollision
      rw [if_neg hc]

/-- C10 witness: the theorem at the coincident point `(1, 2)`. -/
theorem c10_witness :
    pdist ⟨1, 2⟩ ⟨1, 2⟩ = 0 ∧ enforcePlayerCollision ⟨1, 2⟩ ⟨1, 2⟩ = ⟨1, 2⟩ := by
  have h0 : pdist (⟨1, 2⟩ : Pos) ⟨1, 2⟩ = 0 := by
    rw [pdist_def]
    rw [show ((⟨1, 2⟩ : Pos).x - (⟨1, 2⟩ : Pos).x) * ((⟨1, 2⟩ : Pos).x - (⟨1, 2⟩ : Pos).x) +
      ((⟨1, 2⟩ : Pos).z - (⟨1, 2⟩ : Pos).z) * ((⟨1, 2⟩ : Pos).z - (⟨1, 2⟩ : Pos).z) =
      0 by norm_num]
    exact Real.sqrt_zero
  exact ⟨h0, (c10_collision_guard ⟨1, 2⟩ ⟨1, 2⟩).1 h0⟩

-- ## C5: the chaser cap

/-- `EnemyManager.selectNearestChasers` (`part_004`): filter the enemies
eligible to chase (player inside the spawn area, player outside the safe
zone, enemy within the 100-unit cutoff), sort ascending by Euclidean
distance to the player, take the first `maxChasers = 5`. -/
noncomputable def selectNearestChasers (enemies : List Pos) (playerPos : Pos)
    (isPlayerInSafeZone isPlayerInSpawnArea : Bool) : List Pos :=
  ((enemies.filter (fun e =>
      if !isPlayerInSpawnArea || isPlayerInSafeZone then false
      else decide (pdist e playerPos < 100))).mergeSort
    (fun a b => decide (pdist a playerPos ≤ pdist b playerPos))).take 5

noncomputable instance : DecidableEq Pos := fun a b =>
  decidable_of_iff (a.x = b.x ∧ a.z = b.z) (by cases a; cases b; simp)

/-- The two behaviour states of `updateSingleEnemy`. -/
inductive EnemyMode where
  | chasing
  | wandering
  deriving DecidableEq, Repr

/-- The branch `updateSingleEnemy` takes for one enemy: it chases exactly
when it was selected as a chaser and is within 100 units of the player;
otherwise it wanders. -/
noncomputable def enemyMode (enemies : List Pos) (playerPos : Pos)
    (isPlayerInSafeZone isPlayerInSpawnArea : Bool) (e : Pos) : EnemyMode :=
  if e ∈ selectNearestChasers enemies playerPos isPlayerInSafeZone isPlayerInSpawnArea ∧
      pdist e playerPos < 100 then
    EnemyMode.chasing
  else
    EnemyMode.wandering

/-- C5: on every tick at most 5 enemies are selected as chasers — the
first 5 of the ascending-distance sort of the eligible enemies — and
every enemy not selected takes the wander branch, for any population. -/
theorem c5_chaser_cap (enemies : List Pos) (playerPos : Pos)
    (isPlayerInSafeZone isPlayerInSpawnArea : Bool) :
    (selectNearestChasers enemies playerPos isPlayerInSafeZone isPlayerInSpawnArea).length ≤ 5 ∧
    ∀ e, e ∉ selectNearestChasers enemies playerPos isPlayerInSafeZone isPlayerInSpawnArea →
      enemyMode enemies playerPos isPlayerInSafeZone isPlayerInSpawnArea e =
        EnemyMode.wandering := by
  constructor
  · unfold selectNearestChasers
    rw [List.length_take]
    exact min_le_left _ _
  · intro e he
    unfold enemyMode
    rw [if_neg]
    intro hc
    exact he hc.1

/-- C5 witness: the theorem with an empty population — no chasers are
selected and an arbitrary enemy wanders. -/
theorem c5_witness :
    (selectNearestChasers [] ⟨0, 0⟩ false false).length ≤ 5 ∧
    enemyMode [] ⟨0, 0⟩ false false ⟨7, 0⟩ = EnemyMode.wandering := by
  have h := c5_chaser_cap [] ⟨0, 0⟩ false false
  refine ⟨h.1, h.2 ⟨7, 0⟩ ?_⟩
  unfold selectNearestChasers
  simp

-- ## C9: the tower subsystem

/-- `TowerAttackManager` state (`part_003`). -/
structure TowerState where
  isActive : Bool
  towerLevel : Nat
  lastAttackTime : Rat
  deriving DecidableEq, Repr

/-- The tower's initial state: inactive at level 0. -/
def towerInit : TowerState :=
  ⟨false, 0, 0⟩

/-- `TowerAttackManager.upgradeTower`: the first call activates the tower
at level 1; every later call increments the level (no upper bound). -/
def upgradeTower (ts : TowerState) : TowerState :=
  if ts.isActive = false then
    { ts with isActive := true, towerLevel := 1 }
  else
    { ts with towerLevel := ts.towerLevel + 1 }

/-- The damage of one tower hit (`handleArrowHit`):
`Math.floor(10 * Math.pow(1.1, towerLevel))`. -/
def towerDamage (level : Nat) : Int :=
  ⌊(10 : Rat) * (11/10) ^ level⌋

/-- `TowerAttackManager.getNearestEnemy`: linear scan keeping the
strictly closer enemy. -/
noncomputable def getNearestEnemy (enemies : List Pos) (towerPos : Pos) : Option Pos :=
  match enemies with
  | [] => none
  | e :: rest =>
    some (rest.foldl (fun best c =>
      if pdist c towerPos < pdist best towerPos then c else best) e)

/-- `TowerAttackManager.update` (`part_003`): no attack while inactive or
on cooldown; otherwise the nearest enemy within `attackRange = 15` is
attacked for `towerDamage` through `EnemyManager.damageEnemy`, and
`lastAttackTime` is refreshed.  The emitted `(target, damage)` pair
models that `damageEnemy` call. -/
noncomputable def towerUpdate (ts : TowerState) (now : Rat) (towerPos : Pos)
    (enemies : List Pos) : TowerState × Option (Pos × Int) :=
  if ts.isActive = false then (ts, none)
  else if now - ts.lastAttackTime < 1 then (ts, none)
  else
    match getNearestEnemy (enemies.filter (fun e => decide (pdist e towerPos ≤ 15)))
        towerPos with
    | none => (ts, none)
    | some target =>
      ({ ts with lastAttackTime := now }, some (target, towerDamage ts.towerLevel))

theorem foldl_nearest_spec (towerPos : Pos) (l : List Pos) :
    ∀ b : Pos,
      (l.foldl (fun best c => if pdist c towerPos < pdist best towerPos then c else best) b
          ∈ b :: l) ∧
      pdist (l.foldl (fun best c => if pdist c towerPos < pdist best towerPos then c else best) b)
          towerPos ≤ pdist b towerPos ∧
      ∀ e ∈ l,
        pdist (l.foldl (fun best c => if pdist c towerPos < pdist best towerPos then c else best) b)
          towerPos ≤ pdist e towerPos := by
  induction l with
  | nil =>
    intro b
    exact ⟨List.mem_singleton_self b, le_refl _, fun e he => absurd he (List.not_mem_nil e)⟩
  | cons c rest ih =>
    intro b
    rw [List.foldl_cons]
    obtain ⟨hmem, hle, hall⟩ := ih (if pdist c towerPos < pdist b towerPos then c else b)
    have hstep : pdist (if pdist c towerPos < pdist b towerPos then c else b) towerPos ≤
        pdist b towerPos ∧
        pdist (if pdist c towerPos < pdist b towerPos then c else b) towerPos ≤
        pdist c towerPos := by
      split_ifs with hlt
      · exact ⟨le_of_lt hlt, le_refl _⟩
      · exact ⟨le_refl _, not_lt.mp hlt⟩
    refine ⟨?_, le_trans hle hstep.1, ?_⟩
    · rcases List.mem_cons.mp hmem with h1 | h2
      · rw [h1]
        split_ifs with hlt
        · exact List.mem_cons_of_mem b (List.mem_cons_self c rest)
        · exact List.mem_cons_self b (c :: rest)
      · exact List.mem_cons_of_mem b (List.mem_cons_of_mem c h2)
    · intro e he
      rcases List.mem_cons.mp he with h1 | h2
      · rw [h1]
        exact le_trans hle hstep.2
      · exact hall e h2

theorem getNearestEnemy_spec (enemies : List Pos) (towerPos : Pos) (t : Pos)
    (h : getNearestEnemy enemies towerPos = some t) :
    t ∈ enemies ∧ ∀ e ∈ enemies, pdist t towerPos ≤ pdist e towerPos := by
  unfold getNearestEnemy at h
  match enemies, h with
  | e :: rest, h =>
    obtain ⟨hmem, hle, hall⟩ := foldl_nearest_spec towerPos rest e
    injection h with h
    subst h
    constructor
    · exact hmem
    · intro q hq
      rcases List.mem_cons.mp hq with h1 | h2
      · rw [h1]
        exact hle
      · exact hall q h2

/-- C9: the tower never attacks while inactive; the first upgrade
activates it at level 1 and every later upgrade adds one level with no
upper bound; and every emitted attack targets a nearest enemy within
range 15 and carries exactly `floor(10 · 1.1^level)` damage, delivered
through the enemy manager's damage entry point. -/
theorem c9_tower_semantics (ts : TowerState) (now : Rat) (towerPos : Pos)
    (enemies : List Pos) :
    (ts.isActive = false → towerUpdate ts now towerPos enemies = (ts, none)) ∧
    (towerInit.isActive = false ∧ towerInit.towerLevel = 0) ∧
    upgradeTower towerInit = ⟨true, 1, 0⟩ ∧
    (ts.isActive = true →
      upgradeTower ts = { ts with towerLevel := ts.towerLevel + 1 }) ∧
    (∀ ts1 target dmg,
      towerUpdate ts now towerPos enemies = (ts1, some (target, dmg)) →
      dmg = ⌊(10 : Rat) * (11/10) ^ ts.towerLevel⌋ ∧
      target ∈ enemies ∧
      pdist target towerPos ≤ 15 ∧
      ∀ e ∈ enemies, pdist e towerPos ≤ 15 → pdist target towerPos ≤ pdist e towerPos) := by
  refine ⟨?_, ⟨rfl, rfl⟩, rfl, ?_, ?_⟩
  · intro hina
    unfold towerUpdate
    rw [if_pos hina]
  · intro hact
    unfold upgradeTower
    rw [if_neg (by rw [hact]; exact Bool.true_eq_false ▸ (by simp))]
  · intro ts1 target dmg h
    unfold towerUpdate at h
    by_cases hina : ts.isActive = false
    · rw [if_pos hina] at h
      exact absurd (congrArg Prod.snd h) (by simp)
    rw [if_neg hina] at h
    by_cases hcd : now - ts.lastAttackTime < 1
    · rw [if_pos hcd] at h
      exact absurd (congrArg Prod.snd h) (by simp)
    rw [if_neg hcd] at h
    cases hn : getNearestEnemy
        (enemies.filter (fun e => decide (pdist e towerPos ≤ 15))) towerPos with
    | none =>
      rw [hn] at h
      exact absurd (congrArg Prod.snd h) (by simp)
    | some t =>
      rw [hn] at h
      have hsnd := congrArg Prod.snd h
      simp only at hsnd
      injection hsnd with hsnd
      injection hsnd with ht hdmg
      obtain ⟨hmem, hall⟩ := getNearestEnemy_spec _ towerPos t hn
      have hmem2 := List.mem_filter.mp hmem
      have hrange : pdist t towerPos ≤ 15 := by
        have := hmem2.2
        simpa using this
      subst ht
      refine ⟨hdmg.symm, hmem2.1, hrange, ?_⟩
      intro e he hre
      apply hall
      rw [List.mem_filter]
      exact ⟨he, by simpa using hre⟩

/-- C9 witness: the theorem applied to an inactive tower (no attack), to
an active tower being upgraded (level 2 → 3), and to an active tower at
level 1 attacking the single enemy at distance 5 (a 3-4-5 triangle) from
the tower at the origin. -/
theorem c9_witness :
    towerUpdate towerInit 5 ⟨0, 0⟩ [⟨3, 4⟩] = (towerInit, none) ∧
    upgradeTower ⟨true, 2, 0⟩ = ⟨true, 3, 0⟩ ∧
    (towerDamage 1 = ⌊(10 : Rat) * (11/10) ^ 1⌋ ∧
      Pos.mk 3 4 ∈ [Pos.mk 3 4] ∧
      pdist ⟨3, 4⟩ ⟨0, 0⟩ ≤ 15 ∧
      ∀ e ∈ [Pos.mk 3 4], pdist e ⟨0, 0⟩ ≤ 15 →
        pdist ⟨3, 4⟩ ⟨0, 0⟩ ≤ pdist e ⟨0, 0⟩) := by
  have hd : pdist (⟨3, 4⟩ : Pos) ⟨0, 0⟩ = 5 := by
    rw [pdist_def]
    rw [show ((⟨3, 4⟩ : Pos).x - (⟨0, 0⟩ : Pos).x) * ((⟨3, 4⟩ : Pos).x - (⟨0, 0⟩ : Pos).x) +
      ((⟨3, 4⟩ : Pos).z - (⟨0, 0⟩ : Pos).z) * ((⟨3, 4⟩ : Pos).z - (⟨0, 0⟩ : Pos).z) =
      5 * 5 by norm_num]
    exact Real.sqrt_mul_self (by norm_num)
  have hf : ([(⟨3, 4⟩ : Pos)].filter (fun e => decide (pdist e ⟨0, 0⟩ ≤ 15))) =
      [⟨3, 4⟩] := by
    rw [List.filter_cons_of_pos]
    · rw [List.filter_nil]
    · rw [decide_eq_true_eq, hd]
      norm_num
  have heval : towerUpdate ⟨true, 1, 0⟩ 5 ⟨0, 0⟩ [⟨3, 4⟩] =
      (⟨true, 1, 5⟩, some (⟨3, 4⟩, towerDamage 1)) := by
    unfold towerUpdate
    rw [if_neg (by decide : ¬ (⟨true, 1, 0⟩ : TowerState).isActive = false)]
    rw [if_neg (by norm_num : ¬ ((5 : Rat) - (⟨true, 1, 0⟩ : TowerState).lastAttackTime < 1))]
    rw [hf]
    rfl
  have h0 := c9_tower_semantics towerInit 5 ⟨0, 0⟩ [⟨3, 4⟩]
  have h2 := c9_tower_semantics (⟨true, 2, 0⟩ : TowerState) 5 ⟨0, 0⟩ [⟨3, 4⟩]
  have h1 := c9_tower_semantics (⟨true, 1, 0⟩ : TowerState) 5 ⟨0, 0⟩ [⟨3, 4⟩]
  refine ⟨h0.1 rfl, h2.2.2.2.1 rfl, ?_⟩
  have hc := h1.2.2.2.2 ⟨true, 1, 5⟩ ⟨3, 4⟩ (towerDamage 1) heval
  exact hc
